import Mathlib

/-!
Verification development for the distributed migration protocol of the
propulate `Migrator` (file `propulate/migrator.py`).

Pure shallow embedding: the population replica is a `List Individual`,
MPI sends become explicit message lists, Python `assert` / `raise`
becomes `Except String`, and the per-worker random number generator is
abstracted into function parameters (`shuffle`, `rnd`).
-/

/-- Data model of a candidate solution, from the spec's §3 record
(`Individual` of `propulate/population.py`): a trait mapping plus
`loss`, `generation`, `rank`, `island`, `current`, `migration_steps`
and the `active` lifecycle flag. -/
structure Individual where
  traits : List (String × Int)
  loss : Option Int
  generation : Nat
  rank : Nat
  island : Nat
  current : Nat
  migration_steps : Nat
  active : Bool
deriving DecidableEq, Repr

/-- Modelled from the spec: `Individual.__eq__` is defined in
`propulate/population.py`, which is missing from the sources (only the
stale `src/propulate/population.py` declaration, without `__eq__`, is
present while `migrator.py` imports and relies on the operator).  Per
the spec, two individuals are the same candidate iff traits,
`generation`, `rank` and `island` are all equal. -/
def indEq (a b : Individual) : Bool :=
  a.traits == b.traits && a.generation == b.generation &&
    a.rank == b.rank && a.island == b.island

/-- Stronger equivalence described by the spec's §3: identical replica
entry, i.e. same candidate plus equal `migration_steps` plus equal
`current`.  Stated from the spec's words, to be compared with the
lookups the code actually performs. -/
def identicalReplicaEntry (a b : Individual) : Bool :=
  indEq a b && a.migration_steps == b.migration_steps && a.current == b.current

/-- Boolean success test for an `Except` result. -/
def isOkE {α : Type} : Except String α → Bool
  | .ok _ => true
  | .error _ => false

/-- Indices of replica entries matching an emigrant, from
`migrator.py` lines 189-194 and 359-364: the list comprehension
`[idx for idx, ind in enumerate(population) if ind == emigrant and
ind.migration_steps == emigrant.migration_steps]`. -/
def deactMatches (pop : List Individual) (emigrant : Individual) : List Nat :=
  (List.range pop.length).filter (fun idx =>
    match pop[idx]? with
    | some ind => indEq ind emigrant && ind.migration_steps == emigrant.migration_steps
    | none => false)

/-- Flip the `active` flag of the replica entry at `idx` to false
(`population[idx].active = False`). -/
def deactivateAt (pop : List Individual) (idx : Nat) : List Individual :=
  match pop[idx]? with
  | some ind => pop.set idx { ind with active := false }
  | none => pop

/-- Self-deactivation of one emigrant in `_send_emigrants`
(`migrator.py` lines 187-199): look the emigrant up in the population,
`assert len(to_deactivate) == 1`, and flip that entry's `active`. -/
def deactivateOne (pop : List Individual) (emigrant : Individual) :
    Except String (List Individual) :=
  match deactMatches pop emigrant with
  | [idx] => .ok (deactivateAt pop idx)
  | _ => .error "assertion failed: len(to_deactivate) == 1"

/-- Sequential self-deactivation of a batch of emigrants, as in the
`for emigrant in emigrants` loop of `_send_emigrants`. -/
def deactivateAll : List Individual → List Individual → Except String (List Individual)
  | pop, [] => .ok pop
  | pop, e :: rest =>
    match deactivateOne pop e with
    | .error msg => .error msg
    | .ok pop' => deactivateAll pop' rest

/-- Processing of one received immigrant in `_receive_immigrants`
(`migrator.py` lines 250-273): increment `migration_steps`, assert
`active is True`, raise on a catastrophic duplicate (an entry equal
under candidate identity with the new `migration_steps` and the same
`current`), otherwise append a deep copy. -/
def receiveOne (pop : List Individual) (immigrant : Individual) :
    Except String (List Individual) :=
  let imm := { immigrant with migration_steps := immigrant.migration_steps + 1 }
  if imm.active = true then
    if pop.any (fun ind => indEq ind imm && imm.migration_steps == ind.migration_steps
        && imm.current == ind.current) then
      .error "Identical immigrant already active on target island."
    else
      .ok (pop ++ [imm])
  else .error "assertion failed: immigrant.active is True"

/-- Sequential processing of a received immigrant batch, as in the
`for immigrant in immigrants` loop of `_receive_immigrants`. -/
def receiveBatch : List Individual → List Individual → Except String (List Individual)
  | pop, [] => .ok pop
  | pop, imm :: rest =>
    match receiveOne pop imm with
    | .error msg => .error msg
    | .ok pop' => receiveBatch pop' rest

/-- Per-worker state touched by the deactivation drain: the population
replica and the emigrated log. -/
structure DrainState where
  population : List Individual
  emigrated : List Individual
deriving DecidableEq, Repr

/-- Resolution of one emigrated-log entry in `_deactivate_emigrants`
(`migrator.py` lines 357-383): assert the emigrant is active, look it
up in the population; on zero matches leave everything unchanged (the
individual has not arrived yet); otherwise assert exactly one match,
flip its `active`, and remove the corresponding entry (again asserted
unique) from the emigrated log. -/
def resolveEmigrant (st : DrainState) (emigrant : Individual) :
    Except String DrainState :=
  if emigrant.active = true then
    match deactMatches st.population emigrant with
    | [] => .ok st
    | [idx] =>
      match deactMatches st.emigrated emigrant with
      | [ridx] => .ok ⟨deactivateAt st.population idx, st.emigrated.eraseIdx ridx⟩
      | _ => .error "assertion failed: len(to_remove) == 1"
    | _ => .error "assertion failed: len(to_deactivate) == 1"
  else .error "assertion failed: emigrant.active is True"

/-- Walk a snapshot of the emigrated log, resolving each entry in turn
(the `for emigrant in emigrated_copy` loop). -/
def resolveList : DrainState → List Individual → Except String DrainState
  | st, [] => .ok st
  | st, e :: rest =>
    match resolveEmigrant st e with
    | .error msg => .error msg
    | .ok st' => resolveList st' rest

/-- One resolution pass of `_deactivate_emigrants` over a deep copy of
the current emigrated log. -/
def resolvePass (st : DrainState) : Except String DrainState :=
  resolveList st st.emigrated

/-- The probe/receive loop of `_deactivate_emigrants` (`migrator.py`
lines 336-383), driven by the sequence of SYNCHRONIZATION batches it
receives: each batch is appended to the emigrated log and a resolution
pass runs; the final iteration (failed probe) still runs one pass. -/
def drainDeactivations : List (List Individual) → DrainState → Except String DrainState
  | [], st => resolvePass st
  | batch :: rest, st =>
    match resolvePass { st with emigrated := st.emigrated ++ batch } with
    | .error msg => .error msg
    | .ok st' => drainDeactivations rest st'

/-- Redundant safety check `_check_emigrants_to_deactivate`
(`migrator.py` lines 284-324): true iff some emigrated-log entry has at
least one matching population entry (same candidate, equal
`migration_steps`). -/
def checkEmigrantsToDeactivate (st : DrainState) : Bool :=
  st.emigrated.any (fun e =>
    st.population.any (fun ind =>
      indEq ind e && ind.migration_steps == e.migration_steps))

/-- Termination-drain emigrated-log check of `_work` (`migrator.py`
lines 598-612): only for `debug > 0`, assert the redundant check is
false; if the emigrated log is non-empty, run the deactivation drain
once more and raise iff the redundant check then reports a match. -/
def terminationEmigratedCheck (debug : Nat) (st : DrainState)
    (redrain : List (List Individual)) : Except String DrainState :=
  if 0 < debug then
    if checkEmigrantsToDeactivate st then
      .error "assertion failed: check is False"
    else if 0 < st.emigrated.length then
      match drainDeactivations redrain st with
      | .error msg => .error msg
      | .ok st2 =>
        if checkEmigrantsToDeactivate st2 then
          .error "There should not be any individuals left that need to be deactivated."
        else .ok st2
    else .ok st
  else .ok st

/-- Static parameters of the migration engine taken by
`_send_emigrants`: island index, intra-island rank and size, the
island's row of the migration topology, and the world-rank layout of
the islands. -/
structure MigCfg where
  islandIdx : Nat
  rank : Nat
  commSize : Nat
  migrationRow : List Nat
  islandDispls : List Nat
  islandCounts : List Nat
deriving DecidableEq, Repr

/-- Eligible emigrants (`migrator.py` lines 124-128): active
individuals whose `current` equals the worker's intra-island rank. -/
def eligibleEmigrants (pop : List Individual) (rank : Nat) : List Individual :=
  pop.filter (fun ind => ind.active && ind.current == rank)

/-- Modelled from the spec: the loss order used by the default
emigration propagator; unevaluated losses are treated as 0 (they do
not occur among evaluated eligible emigrants). -/
def lossLe (a b : Individual) : Bool :=
  a.loss.getD 0 ≤ b.loss.getD 0

/-- Insertion step of the loss-ordered sort. -/
def insertByLoss (ind : Individual) : List Individual → List Individual
  | [] => [ind]
  | x :: xs => if lossLe ind x then ind :: x :: xs else x :: insertByLoss ind xs

/-- Loss-ascending insertion sort. -/
def sortByLoss : List Individual → List Individual
  | [] => []
  | x :: xs => insertByLoss x (sortByLoss xs)

/-- Modelled from the spec: the default emigration propagator
`SelectMin` lives in `propulate/propagators.py`, which is missing from
the sources; per the spec it selects the `n` lowest-loss individuals
from its input. -/
def selectMin (n : Nat) (inds : List Individual) : List Individual :=
  (sortByLoss inds).take n

/-- Output of a migration event: the updated population replica, the
SYNCHRONIZATION messages (intra-island destination rank, payload) and
the MIGRATION messages (world destination rank, payload). -/
structure SendOut where
  population : List Individual
  syncMsgs : List (Nat × List Individual)
  migMsgs : List (Nat × List Individual)
deriving DecidableEq, Repr

/-- Loop body of `_send_emigrants` over `enumerate(to_migrate)`
(`migrator.py` lines 143-204), with `sent` the running
`offsprings_sent` counter and `rc` the number of `rng.randrange` calls
made so far: skip zero rows; otherwise slice the next `off` emigrants,
emit a SYNCHRONIZATION copy to every other intra-island worker, emit a
MIGRATION copy with freshly sampled `current` to every world rank of
the target island, then self-deactivate the emigrants. -/
def processTargets (cfg : MigCfg) (rnd : Nat → Nat → Nat) (allEm : List Individual) :
    List (Nat × Nat) → Nat → Nat → List Individual →
    Except String (List Individual × List (Nat × List Individual) × List (Nat × List Individual))
  | [], _, _, pop => .ok (pop, [], [])
  | (tgt, off) :: rest, sent, rc, pop =>
    if off = 0 then processTargets cfg rnd allEm rest sent rc pop
    else
      let emigrants := (allEm.drop sent).take off
      let count := cfg.islandCounts.getD tgt 0
      let displ := cfg.islandDispls.getD tgt 0
      let syncs := ((List.range cfg.commSize).filter (fun r => r ≠ cfg.rank)).map
        (fun r => (r, emigrants))
      let departing := emigrants.enum.map
        (fun pi => { pi.2 with current := rnd (rc + pi.1) count })
      let migs := (List.range count).map (fun k => (displ + k, departing))
      match deactivateAll pop emigrants with
      | .error msg => .error msg
      | .ok pop2 =>
        match processTargets cfg rnd allEm rest (sent + off) (rc + emigrants.length) pop2 with
        | .error msg => .error msg
        | .ok (popF, sy, mg) => .ok (popF, syncs ++ sy, migs ++ mg)

/-- Embedding of `_send_emigrants` (`migrator.py` lines 109-219): if
the topology row's total exceeds the number of eligible emigrants the
event is skipped; otherwise the emigration propagator selects the
emigrants, the RNG shuffles them, and the per-target loop runs. -/
def sendEmigrants (cfg : MigCfg) (emigrator : Nat → List Individual → List Individual)
    (shuffle : List Individual → List Individual) (rnd : Nat → Nat → Nat)
    (pop : List Individual) : Except String SendOut :=
  let numEmigrants := cfg.migrationRow.sum
  let eligible := eligibleEmigrants pop cfg.rank
  if numEmigrants ≤ eligible.length then
    let allEmigrants := shuffle (emigrator numEmigrants eligible)
    match processTargets cfg rnd allEmigrants cfg.migrationRow.enum 0 0 pop with
    | .error msg => .error msg
    | .ok (popF, sy, mg) => .ok ⟨popF, sy, mg⟩
  else .ok ⟨pop, [], []⟩

/-- Sequential batch of a migration event: the `row[j]` individuals
starting at the prefix sum of the row, as described by the spec's
partition of the shuffled selection. -/
def batchAt (row : List Nat) (allEm : List Individual) (j : Nat) : List Individual :=
  (allEm.drop ((row.take j).sum)).take (row.getD j 0)

/-- SYNCHRONIZATION messages produced by the per-target loop, indexed
by the remaining `(target, offspring)` pairs and the running
`offsprings_sent` counter. -/
def syncsForT (cfg : MigCfg) (allEm : List Individual) :
    List (Nat × Nat) → Nat → List (Nat × List Individual)
  | [], _ => []
  | (_, off) :: rest, sent =>
    if off = 0 then syncsForT cfg allEm rest sent
    else ((List.range cfg.commSize).filter (fun r => r ≠ cfg.rank)).map
          (fun r => (r, (allEm.drop sent).take off))
        ++ syncsForT cfg allEm rest (sent + off)

/-- Departing deep copy of a batch: each individual's `current` is
replaced by the value of the next `rng.randrange(0, count)` call. -/
def departAt (rnd : Nat → Nat → Nat) (count rc : Nat) (b : List Individual) :
    List Individual :=
  b.enum.map (fun pi => { pi.2 with current := rnd (rc + pi.1) count })

/-- MIGRATION messages produced by the per-target loop, indexed by the
remaining `(target, offspring)` pairs, the running `offsprings_sent`
counter and the running `rng.randrange` call counter. -/
def migsForT (cfg : MigCfg) (rnd : Nat → Nat → Nat) (allEm : List Individual) :
    List (Nat × Nat) → Nat → Nat → List (Nat × List Individual)
  | [], _, _ => []
  | (tgt, off) :: rest, sent, rc =>
    if off = 0 then migsForT cfg rnd allEm rest sent rc
    else
      (List.range (cfg.islandCounts.getD tgt 0)).map
        (fun k => (cfg.islandDispls.getD tgt 0 + k,
          departAt rnd (cfg.islandCounts.getD tgt 0) rc ((allEm.drop sent).take off)))
      ++ migsForT cfg rnd allEm rest (sent + off) (rc + ((allEm.drop sent).take off).length)

/-- Number of `rng.randrange` calls made while processing the first
`j` rows: the summed lengths of the earlier batches. -/
def rcAt (row : List Nat) (allEm : List Individual) (sent j : Nat) : Nat :=
  ((List.range j).map (fun k =>
    ((allEm.drop (sent + (row.take k).sum)).take (row.getD k 0)).length)).sum

/-- File-system actions of a checkpoint block. -/
inductive FileOp where
  | renameToBkp : FileOp
  | writeCkpt : FileOp
deriving DecidableEq, Repr

/-- Per-generation checkpoint block of `_work` (`migrator.py` lines
546-555): best-effort rename of an existing checkpoint file to `.bkp`,
then an unconditional write of the population replica. -/
def generationDumpOps (ckptExists : Bool) : List FileOp :=
  if ckptExists then [FileOp.renameToBkp, FileOp.writeCkpt] else [FileOp.writeCkpt]

/-- Final checkpoint block of `_work` (`migrator.py` lines 617-625):
on intra-island rank 0, the rename *and the write* are both nested
under `os.path.isfile(save_ckpt_file)`. -/
def finalCheckpointOps (commRank : Nat) (ckptExists : Bool) : List FileOp :=
  if commRank = 0 then
    if ckptExists then [FileOp.renameToBkp, FileOp.writeCkpt] else []
  else []

/-- State of one island's checkpoint-token ring: each worker's `dump`
flag and the destinations of the DUMP messages in flight. -/
structure RingState where
  holder : List Bool
  inflight : List Nat
deriving DecidableEq, Repr

/-- Number of workers whose `dump` flag is set. -/
def countHolders (s : RingState) : Nat := (s.holder.filter id).length

/-- Initial ring state (`dump = True if self.comm.rank == 0 else
False`, `migrator.py` line 507). -/
def ringInit (n : Nat) : RingState :=
  ⟨(List.range n).map (fun i => decide (i = 0)), []⟩

/-- Successor rank in the ring (`migrator.py` line 557): `rank + 1`
wrapping to 0 at the island size. -/
def nextRank (w n : Nat) : Nat := if w + 1 < n then w + 1 else 0

/-- Protocol steps of the checkpoint-token ring (`migrator.py` lines
540-571): a worker holding the token writes the checkpoint, sends DUMP
to the next rank and clears its flag, all within one loop iteration
with no intervening communication; a worker sets its flag only by
receiving a DUMP message addressed to it. -/
inductive RingStep (n : Nat) : RingState → RingState → Prop
  | dump (w : Nat) (s : RingState) (hw : w < n)
      (hh : s.holder.getD w false = true) :
      RingStep n s ⟨s.holder.set w false, nextRank w n :: s.inflight⟩
  | recv (w : Nat) (s : RingState) (hw : w < n)
      (hmem : w ∈ s.inflight) :
      RingStep n s ⟨s.holder.set w true, s.inflight.erase w⟩

/-! ### Helper lemmas -/

lemma indEq_iff (a b : Individual) :
    indEq a b = true ↔
      a.traits = b.traits ∧ a.generation = b.generation ∧
        a.rank = b.rank ∧ a.island = b.island := by
  simp [indEq, Bool.and_eq_true, and_assoc]

lemma deactMatches_mem (pop : List Individual) (e : Individual) (idx : Nat) :
    idx ∈ deactMatches pop e ↔
      ∃ ind, pop[idx]? = some ind ∧ indEq ind e = true ∧
        ind.migration_steps = e.migration_steps := by
  unfold deactMatches
  rw [List.mem_filter]
  constructor
  · rintro ⟨hr, hp⟩
    cases hi : pop[idx]? with
    | none => rw [hi] at hp; simp at hp
    | some ind =>
      rw [hi] at hp
      simp only [Bool.and_eq_true, beq_iff_eq] at hp
      exact ⟨ind, rfl, hp.1, hp.2⟩
  · rintro ⟨ind, hi, he, hm⟩
    have hlt : idx < pop.length := by
      by_contra hge
      rw [List.getElem?_eq_none (Nat.le_of_not_lt hge)] at hi
      exact Option.noConfusion hi
    refine ⟨List.mem_range.mpr hlt, ?_⟩
    rw [hi]
    simp [he, hm]

/-! ### C1 -/

/-- C1: the equality test the program uses to match replica entries
(candidate identity, modelled from the spec since `Individual.__eq__`
is outside the sources) holds iff traits, `generation`, `rank` and
`island` are all equal, and it disregards `loss`, `active`, `current`
and `migration_steps` on either side. -/
theorem C1_same_candidate_equality (a b : Individual) :
    (indEq a b = true ↔
      a.traits = b.traits ∧ a.generation = b.generation ∧
        a.rank = b.rank ∧ a.island = b.island)
    ∧ (∀ l ac cu ms,
        indEq { a with loss := l, active := ac, current := cu, migration_steps := ms } b
          = indEq a b
        ∧ indEq a { b with loss := l, active := ac, current := cu, migration_steps := ms }
          = indEq a b) :=
  ⟨indEq_iff a b, fun _ _ _ _ => ⟨rfl, rfl⟩⟩

lemma indEq_bump (a b : Individual) (k : Nat) :
    indEq a { b with migration_steps := k } = indEq a b := rfl

lemma receiveOne_eq (pop : List Individual) (imm : Individual) :
    receiveOne pop imm =
      if imm.active = true then
        if pop.any (fun ind => indEq ind imm &&
            imm.migration_steps + 1 == ind.migration_steps &&
            imm.current == ind.current) then
          .error "Identical immigrant already active on target island."
        else
          .ok (pop ++ [{ imm with migration_steps := imm.migration_steps + 1 }])
      else .error "assertion failed: immigrant.active is True" := rfl

/-! ### C3 -/

/-- C3: in the immigration drain each immigrant's `migration_steps` is
incremented and `active` is asserted true; the worker aborts iff the
replica holds an entry with the same candidate identity, the new
`migration_steps` and the same `current`; otherwise a copy is appended
and the existing replica entries are untouched, and batches process
the immigrants in sequence. -/
theorem C3_immigration (pop : List Individual) (imm : Individual) :
    (imm.active = false → isOkE (receiveOne pop imm) = false)
    ∧ (imm.active = true →
        (isOkE (receiveOne pop imm) = false ↔
          ∃ ind ∈ pop, indEq ind imm = true ∧
            ind.migration_steps = imm.migration_steps + 1 ∧ ind.current = imm.current))
    ∧ (imm.active = true →
        (∀ ind ∈ pop,
          ¬(indEq ind imm = true ∧
            ind.migration_steps = imm.migration_steps + 1 ∧ ind.current = imm.current)) →
        receiveOne pop imm
          = .ok (pop ++ [{ imm with migration_steps := imm.migration_steps + 1 }]))
    ∧ (∀ rest, receiveBatch pop (imm :: rest) =
        match receiveOne pop imm with
        | .error msg => .error msg
        | .ok pop2 => receiveBatch pop2 rest) := by
  refine ⟨?_, ?_, ?_, ?_⟩
  · intro h
    rw [receiveOne_eq]
    simp [h, isOkE]
  · intro h
    rw [receiveOne_eq, if_pos h]
    cases hp : pop.any (fun ind => indEq ind imm &&
        imm.migration_steps + 1 == ind.migration_steps && imm.current == ind.current) with
    | false =>
      refine iff_of_false (by simp [isOkE]) ?_
      rw [List.any_eq_false] at hp
      rintro ⟨ind, hmem, he, hm, hc⟩
      exact hp ind hmem (by simp [he, hm, hc])
    | true =>
      refine iff_of_true (by simp [isOkE]) ?_
      rw [List.any_eq_true] at hp
      obtain ⟨ind, hmem, hpred⟩ := hp
      simp only [Bool.and_eq_true, beq_iff_eq] at hpred
      exact ⟨ind, hmem, hpred.1.1, hpred.1.2.symm, hpred.2.symm⟩
  · intro h hnone
    have hfalse : pop.any (fun ind => indEq ind imm &&
        imm.migration_steps + 1 == ind.migration_steps && imm.current == ind.current) = false := by
      rw [List.any_eq_false]
      intro ind hmem
      simp only [Bool.and_eq_true, beq_iff_eq, not_and]
      intro he hc
      exact hnone ind hmem ⟨he.1, he.2.symm, hc.symm⟩
    rw [receiveOne_eq, if_pos h, if_neg (by simp [hfalse])]
  · intro rest
    rfl

/-! ### C2 -/

/-- Replica entry used in the C2 counterexample: an individual owned
by intra-island worker 1. -/
def cIndPop : Individual :=
  ⟨[("x", 1)], some 5, 0, 0, 0, 1, 0, true⟩

/-- Emigrant used in the C2 counterexample: the same candidate with the
same `migration_steps` but a different `current`. -/
def cIndEmi : Individual :=
  ⟨[("x", 1)], none, 0, 0, 0, 0, 0, true⟩

/-- C2 counterexample: the deactivation lookups do NOT use the
identical-replica-entry equivalence.  `cIndPop` and `cIndEmi` differ
in `current` (so they are not identical replica entries, and under the
claim the lookup should find no match), yet both the self-deactivation
of `_send_emigrants` and the drain resolution of
`_deactivate_emigrants` match and deactivate the entry. -/
theorem C2_counterexample :
    identicalReplicaEntry cIndPop cIndEmi = false
    ∧ cIndPop.current ≠ cIndEmi.current
    ∧ deactivateOne [cIndPop] cIndEmi = .ok [{ cIndPop with active := false }]
    ∧ resolveEmigrant ⟨[cIndPop], [cIndEmi]⟩ cIndEmi
        = .ok ⟨[{ cIndPop with active := false }], []⟩ := by
  refine ⟨rfl, by decide, rfl, rfl⟩

/-- C2 (amended): the deactivation lookups match under candidate
identity plus equal `migration_steps` only — `current` is not
compared; the self-deactivation succeeds iff exactly one replica entry
matches, flipping only that entry's `active`; the drain resolution
leaves the state unchanged on zero matches and otherwise flips the
unique match and removes the log entry. -/
theorem C2_deactivation_lookup (pop : List Individual) (e : Individual) :
    (∀ c, deactMatches pop { e with current := c } = deactMatches pop e)
    ∧ (∀ idx, idx ∈ deactMatches pop e ↔
        ∃ ind, pop[idx]? = some ind ∧ indEq ind e = true ∧
          ind.migration_steps = e.migration_steps)
    ∧ (isOkE (deactivateOne pop e) = true ↔ (deactMatches pop e).length = 1)
    ∧ (∀ idx, deactMatches pop e = [idx] →
        deactivateOne pop e = .ok (deactivateAt pop idx)
        ∧ ∀ k, k ≠ idx → (deactivateAt pop idx)[k]? = pop[k]?)
    ∧ (∀ em, e.active = true → deactMatches pop e = [] →
        resolveEmigrant ⟨pop, em⟩ e = .ok ⟨pop, em⟩)
    ∧ (∀ em idx ridx, e.active = true → deactMatches pop e = [idx] →
        deactMatches em e = [ridx] →
        resolveEmigrant ⟨pop, em⟩ e = .ok ⟨deactivateAt pop idx, em.eraseIdx ridx⟩) := by
  refine ⟨fun c => rfl, fun idx => deactMatches_mem pop e idx, ?_, ?_, ?_, ?_⟩
  · unfold deactivateOne
    cases hm : deactMatches pop e with
    | nil => simp [isOkE]
    | cons a t =>
      cases t with
      | nil => simp [isOkE]
      | cons b t' => simp [isOkE]
  · intro idx h
    refine ⟨by unfold deactivateOne; rw [h], ?_⟩
    intro k hk
    unfold deactivateAt
    cases hi : pop[idx]? with
    | none => rfl
    | some ind => exact List.getElem?_set_ne (Ne.symm hk)
  · intro em hact hm
    unfold resolveEmigrant
    rw [if_pos hact]
    simp only [hm]
  · intro em idx ridx hact hp hr
    unfold resolveEmigrant
    rw [if_pos hact]
    simp only [hp, hr]

/-- Closed instance of the amended C2 statement at a concrete lookup. -/
theorem C2_deactivation_lookup_witness :
    deactivateOne [cIndPop] cIndEmi = .ok (deactivateAt [cIndPop] 0) :=
  ((C2_deactivation_lookup [cIndPop] cIndEmi).2.2.2.1 0 (by decide)).1

/-- Closed instance of C3 at a concrete immigrant. -/
theorem C3_immigration_witness :
    receiveOne [] cIndEmi
      = .ok [{ cIndEmi with migration_steps := cIndEmi.migration_steps + 1 }] :=
  (C3_immigration [] cIndEmi).2.2.1 rfl (by simp)

/-! ### C7 and C10 -/

/-- C7 counterexample: with `debug = 1` a worker whose emigrated log
holds an entry with no matching replica entry passes the final check
and exits normally with a non-empty emigrated log, contradicting the
claim that a terminal error is raised whenever the log is non-empty
after the extra drain. -/
theorem C7_counterexample :
    terminationEmigratedCheck 1 ⟨[], [cIndEmi]⟩ [] = .ok ⟨[], [cIndEmi]⟩
    ∧ ([cIndEmi] : List Individual) ≠ [] :=
  ⟨rfl, by decide⟩

/-- C7 (amended): for `debug > 0` the termination sequence asserts
that no emigrated-log entry matches a replica entry (not that the log
is empty); if the log is non-empty the deactivation drain runs exactly
once more and the terminal error is raised iff some log entry still
matches a replica entry — a worker may exit normally with a non-empty
log of unmatched entries. -/
theorem C7_termination_check (debug : Nat) (st : DrainState)
    (batches : List (List Individual)) (hd : 0 < debug) :
    (checkEmigrantsToDeactivate st = true →
      isOkE (terminationEmigratedCheck debug st batches) = false)
    ∧ (checkEmigrantsToDeactivate st = false → st.emigrated = [] →
        terminationEmigratedCheck debug st batches = .ok st)
    ∧ (checkEmigrantsToDeactivate st = false → st.emigrated ≠ [] → ∀ st2,
        drainDeactivations batches st = .ok st2 →
        terminationEmigratedCheck debug st batches =
          if checkEmigrantsToDeactivate st2 then
            .error "There should not be any individuals left that need to be deactivated."
          else .ok st2)
    ∧ (checkEmigrantsToDeactivate st = false → st.emigrated ≠ [] → ∀ msg,
        drainDeactivations batches st = .error msg →
        terminationEmigratedCheck debug st batches = .error msg) := by
  refine ⟨?_, ?_, ?_, ?_⟩
  · intro hc
    unfold terminationEmigratedCheck
    rw [if_pos hd, if_pos hc]
    rfl
  · intro hc he
    unfold terminationEmigratedCheck
    rw [if_pos hd, if_neg (by simp [hc]), if_neg (by simp [he])]
  · intro hc hne st2 hdr
    unfold terminationEmigratedCheck
    rw [if_pos hd, if_neg (by simp [hc]), if_pos (List.length_pos.mpr hne), hdr]
  · intro hc hne msg hdr
    unfold terminationEmigratedCheck
    rw [if_pos hd, if_neg (by simp [hc]), if_pos (List.length_pos.mpr hne), hdr]

/-- Closed instance of the amended C7 statement. -/
theorem C7_termination_check_witness :
    terminationEmigratedCheck 1 ⟨[], []⟩ [] = .ok ⟨[], []⟩ :=
  (C7_termination_check 1 ⟨[], []⟩ [] (by decide)).2.1 rfl rfl

/-- C10: with debug verbosity 0 the termination sequence performs no
emigrated-log check at all — the result is always `ok` and the state
is returned unchanged, regardless of the emigrated log's contents. -/
theorem C10_debug_zero_skips_check (st : DrainState)
    (batches : List (List Individual)) :
    terminationEmigratedCheck 0 st batches = .ok st := by
  unfold terminationEmigratedCheck
  rw [if_neg (by decide)]

/-! ### C4 -/

/-- C4: when the eligible emigrants are fewer than the topology row's
total, `_send_emigrants` skips the migration event entirely and
non-fatally: no SYNCHRONIZATION or MIGRATION message is emitted and
the population is returned unchanged (the function never touches the
emigrated log at all). -/
theorem C4_underpopulation_skip (cfg : MigCfg)
    (emigrator : Nat → List Individual → List Individual)
    (shuffle : List Individual → List Individual) (rnd : Nat → Nat → Nat)
    (pop : List Individual)
    (h : (eligibleEmigrants pop cfg.rank).length < cfg.migrationRow.sum) :
    sendEmigrants cfg emigrator shuffle rnd pop = .ok ⟨pop, [], []⟩ := by
  unfold sendEmigrants
  rw [if_neg (Nat.not_le.mpr h)]

/-- Migration configuration used by concrete witnesses: two islands of
two workers each, the worker being island 0's rank 0, sending one
individual to island 1. -/
def wCfg : MigCfg := ⟨0, 0, 2, [0, 1], [0, 2], [2, 2]⟩

/-- Closed instance of C4 on an empty population. -/
theorem C4_underpopulation_skip_witness :
    sendEmigrants wCfg selectMin id (fun _ _ => 0) [] = .ok ⟨[], [], []⟩ :=
  C4_underpopulation_skip wCfg selectMin id (fun _ _ => 0) [] (by decide)

/-! ### Selection and partition lemmas -/

lemma length_insertByLoss (x : Individual) (l : List Individual) :
    (insertByLoss x l).length = l.length + 1 := by
  induction l with
  | nil => rfl
  | cons a t ih =>
    unfold insertByLoss
    by_cases h : lossLe x a = true
    · rw [if_pos h]
      rfl
    · rw [if_neg h]
      simp [ih]

lemma insertByLoss_perm (x : Individual) (l : List Individual) :
    (insertByLoss x l).Perm (x :: l) := by
  induction l with
  | nil => exact List.Perm.refl _
  | cons a t ih =>
    unfold insertByLoss
    by_cases h : lossLe x a = true
    · rw [if_pos h]
    · rw [if_neg h]
      exact (List.Perm.cons a ih).trans (List.Perm.swap x a t)

lemma sortByLoss_perm (l : List Individual) : (sortByLoss l).Perm l := by
  induction l with
  | nil => exact List.Perm.refl _
  | cons a t ih =>
    exact (insertByLoss_perm a (sortByLoss t)).trans (List.Perm.cons a ih)

lemma selectMin_length (n : Nat) (l : List Individual) (h : n ≤ l.length) :
    (selectMin n l).length = n := by
  unfold selectMin
  rw [List.length_take, (sortByLoss_perm l).length_eq]
  exact Nat.min_eq_left h

lemma selectMin_subset (n : Nat) (l : List Individual) (x : Individual)
    (hx : x ∈ selectMin n l) : x ∈ l :=
  (sortByLoss_perm l).mem_iff.mp (List.take_subset n (sortByLoss l) hx)

lemma processTargets_nil (cfg : MigCfg) (rnd : Nat → Nat → Nat)
    (allEm : List Individual) (sent rc : Nat) (pop : List Individual) :
    processTargets cfg rnd allEm [] sent rc pop = .ok (pop, [], []) := rfl

lemma processTargets_cons (cfg : MigCfg) (rnd : Nat → Nat → Nat)
    (allEm : List Individual) (tgt off : Nat) (rest : List (Nat × Nat))
    (sent rc : Nat) (pop : List Individual) :
    processTargets cfg rnd allEm ((tgt, off) :: rest) sent rc pop =
      if off = 0 then processTargets cfg rnd allEm rest sent rc pop
      else
        match deactivateAll pop ((allEm.drop sent).take off) with
        | .error msg => .error msg
        | .ok pop2 =>
          match processTargets cfg rnd allEm rest (sent + off)
              (rc + ((allEm.drop sent).take off).length) pop2 with
          | .error msg => .error msg
          | .ok (popF, sy, mg) =>
            .ok (popF,
              ((List.range cfg.commSize).filter (fun r => r ≠ cfg.rank)).map
                (fun r => (r, (allEm.drop sent).take off)) ++ sy,
              (List.range (cfg.islandCounts.getD tgt 0)).map
                (fun k => (cfg.islandDispls.getD tgt 0 + k,
                  departAt rnd (cfg.islandCounts.getD tgt 0) rc
                    ((allEm.drop sent).take off))) ++ mg) := rfl

lemma syncsForT_nil (cfg : MigCfg) (allEm : List Individual) (sent : Nat) :
    syncsForT cfg allEm [] sent = [] := rfl

lemma syncsForT_cons (cfg : MigCfg) (allEm : List Individual)
    (tgt off : Nat) (rest : List (Nat × Nat)) (sent : Nat) :
    syncsForT cfg allEm ((tgt, off) :: rest) sent =
      if off = 0 then syncsForT cfg allEm rest sent
      else ((List.range cfg.commSize).filter (fun r => r ≠ cfg.rank)).map
            (fun r => (r, (allEm.drop sent).take off))
          ++ syncsForT cfg allEm rest (sent + off) := rfl

lemma migsForT_nil (cfg : MigCfg) (rnd : Nat → Nat → Nat)
    (allEm : List Individual) (sent rc : Nat) :
    migsForT cfg rnd allEm [] sent rc = [] := rfl

lemma migsForT_cons (cfg : MigCfg) (rnd : Nat → Nat → Nat)
    (allEm : List Individual) (tgt off : Nat) (rest : List (Nat × Nat))
    (sent rc : Nat) :
    migsForT cfg rnd allEm ((tgt, off) :: rest) sent rc =
      if off = 0 then migsForT cfg rnd allEm rest sent rc
      else
        (List.range (cfg.islandCounts.getD tgt 0)).map
          (fun k => (cfg.islandDispls.getD tgt 0 + k,
            departAt rnd (cfg.islandCounts.getD tgt 0) rc ((allEm.drop sent).take off)))
        ++ migsForT cfg rnd allEm rest (sent + off)
            (rc + ((allEm.drop sent).take off).length) := rfl

lemma processTargets_msgs (cfg : MigCfg) (rnd : Nat → Nat → Nat)
    (allEm : List Individual) (targets : List (Nat × Nat)) :
    ∀ (sent rc : Nat) (pop popF : List Individual)
      (sy mg : List (Nat × List Individual)),
      processTargets cfg rnd allEm targets sent rc pop = .ok (popF, sy, mg) →
      sy = syncsForT cfg allEm targets sent
        ∧ mg = migsForT cfg rnd allEm targets sent rc := by
  induction targets with
  | nil =>
    intro sent rc pop popF sy mg h
    rw [processTargets_nil] at h
    injection h with h
    injection h with h1 h2
    injection h2 with h2 h3
    exact ⟨h2.symm, h3.symm⟩
  | cons hd rest ih =>
    obtain ⟨tgt, off⟩ := hd
    intro sent rc pop popF sy mg h
    rw [processTargets_cons] at h
    rw [syncsForT_cons, migsForT_cons]
    by_cases hoff : off = 0
    · rw [if_pos hoff] at h ⊢
      rw [if_pos hoff]
      exact ih sent rc pop popF sy mg h
    · rw [if_neg hoff] at h ⊢
      rw [if_neg hoff]
      split at h
      · cases h
      · rename_i pop2 hd2
        split at h
        · cases h
        · rename_i popF' sy' mg' hr
          injection h with h
          injection h with h1 h2
          injection h2 with h2 h3
          obtain ⟨ihs, ihm⟩ := ih (sent + off)
            (rc + ((allEm.drop sent).take off).length) pop2 popF' sy' mg' hr
          rw [← h2, ← h3, ihs, ihm]
          exact ⟨rfl, rfl⟩

lemma syncsForT_enumFrom (cfg : MigCfg) (allEm : List Individual) :
    ∀ (row : List Nat) (i sent : Nat),
      syncsForT cfg allEm (List.enumFrom i row) sent
        = (List.range row.length).flatMap (fun j =>
            if row.getD j 0 = 0 then []
            else ((List.range cfg.commSize).filter (fun r => r ≠ cfg.rank)).map
                  (fun r => (r, (allEm.drop (sent + (row.take j).sum)).take (row.getD j 0))))
  | [], i, sent => by simp [syncsForT_nil]
  | off :: rest, i, sent => by
    rw [List.enumFrom_cons, syncsForT_cons, List.length_cons, List.range_succ_eq_map,
      List.flatMap_cons, List.flatMap_map]
    by_cases hoff : off = 0
    · rw [if_pos hoff, syncsForT_enumFrom cfg allEm rest (i + 1) sent]
      rw [show ((off :: rest).getD 0 0) = off from rfl, if_pos hoff, List.nil_append]
      congr 1
      funext j
      simp only [Nat.succ_eq_add_one, List.getD_cons_succ, List.take_succ_cons,
        List.sum_cons, hoff, Nat.zero_add]
    · rw [if_neg hoff, syncsForT_enumFrom cfg allEm rest (i + 1) (sent + off)]
      rw [show ((off :: rest).getD 0 0) = off from rfl, if_neg hoff]
      congr 1
      congr 1
      funext j
      simp only [Nat.succ_eq_add_one, List.getD_cons_succ, List.take_succ_cons,
        List.sum_cons, Nat.add_assoc]

lemma batches_flatten (allEm : List Individual) : ∀ (row : List Nat) (l : List Individual),
    ((List.range row.length).map (fun j =>
      (l.drop ((row.take j).sum)).take (row.getD j 0))).flatten = l.take row.sum
  | [], l => by simp
  | off :: rest, l => by
    rw [List.length_cons, List.range_succ_eq_map, List.map_cons, List.map_map,
      List.flatten_cons]
    have hpt : ((List.range rest.length).map
        ((fun j => (l.drop (((off :: rest).take j).sum)).take ((off :: rest).getD j 0))
          ∘ Nat.succ))
        = (List.range rest.length).map (fun j =>
            ((l.drop off).drop ((rest.take j).sum)).take (rest.getD j 0)) := by
      apply List.map_congr_left
      intro j _
      simp only [Function.comp_apply, Nat.succ_eq_add_one, List.getD_cons_succ,
        List.take_succ_cons, List.sum_cons, List.drop_drop]
    rw [hpt, batches_flatten allEm rest (l.drop off)]
    simp only [List.take_zero, List.sum_nil, List.drop_zero,
      show ((off :: rest).getD 0 0) = off from rfl, List.sum_cons]
    exact (List.take_add l off rest.sum).symm

lemma rcAt_zero (row : List Nat) (allEm : List Individual) (sent : Nat) :
    rcAt row allEm sent 0 = 0 := rfl

lemma rcAt_succ_cons (off : Nat) (rest : List Nat) (allEm : List Individual)
    (sent j : Nat) :
    rcAt (off :: rest) allEm sent (j + 1)
      = ((allEm.drop sent).take off).length + rcAt rest allEm (sent + off) j := by
  unfold rcAt
  rw [List.range_succ_eq_map, List.map_cons, List.map_map, List.sum_cons]
  congr 1
  apply congrArg
  apply List.map_congr_left
  intro k _
  simp only [Function.comp_apply, Nat.succ_eq_add_one, List.getD_cons_succ,
    List.take_succ_cons, List.sum_cons, Nat.add_assoc]

lemma migsForT_enumFrom (cfg : MigCfg) (rnd : Nat → Nat → Nat) (allEm : List Individual) :
    ∀ (row : List Nat) (i sent rc : Nat),
      migsForT cfg rnd allEm (List.enumFrom i row) sent rc
        = (List.range row.length).flatMap (fun j =>
            if row.getD j 0 = 0 then []
            else
              (List.range (cfg.islandCounts.getD (i + j) 0)).map
                (fun k => (cfg.islandDispls.getD (i + j) 0 + k,
                  departAt rnd (cfg.islandCounts.getD (i + j) 0)
                    (rc + rcAt row allEm sent j)
                    ((allEm.drop (sent + (row.take j).sum)).take (row.getD j 0)))))
  | [], i, sent, rc => by simp [migsForT_nil]
  | off :: rest, i, sent, rc => by
    rw [List.enumFrom_cons, migsForT_cons, List.length_cons, List.range_succ_eq_map,
      List.flatMap_cons, List.flatMap_map]
    by_cases hoff : off = 0
    · rw [if_pos hoff, migsForT_enumFrom cfg rnd allEm rest (i + 1) sent rc]
      rw [show ((off :: rest).getD 0 0) = off from rfl, if_pos hoff, List.nil_append]
      congr 1
      funext j
      simp only [Function.comp_apply, Nat.succ_eq_add_one, List.getD_cons_succ,
        List.take_succ_cons, List.sum_cons, rcAt_succ_cons, hoff, List.take_zero,
        List.length_nil, Nat.zero_add, Nat.add_zero, Nat.add_assoc, Nat.add_comm 1 j,
        Nat.add_right_comm i 1 j]
    · rw [if_neg hoff, migsForT_enumFrom cfg rnd allEm rest (i + 1) (sent + off)
        (rc + ((allEm.drop sent).take off).length)]
      rw [show ((off :: rest).getD 0 0) = off from rfl, if_neg hoff]
      congr 1
      congr 1
      funext j
      simp only [Function.comp_apply, Nat.succ_eq_add_one, List.getD_cons_succ,
        List.take_succ_cons, List.sum_cons, rcAt_succ_cons, Nat.add_assoc,
        Nat.add_right_comm i 1 j]

lemma sendEmigrants_eq (cfg : MigCfg)
    (emigrator : Nat → List Individual → List Individual)
    (shuffle : List Individual → List Individual) (rnd : Nat → Nat → Nat)
    (pop : List Individual) :
    sendEmigrants cfg emigrator shuffle rnd pop =
      if cfg.migrationRow.sum ≤ (eligibleEmigrants pop cfg.rank).length then
        match processTargets cfg rnd
            (shuffle (emigrator cfg.migrationRow.sum (eligibleEmigrants pop cfg.rank)))
            cfg.migrationRow.enum 0 0 pop with
        | .error msg => .error msg
        | .ok (popF, sy, mg) => .ok ⟨popF, sy, mg⟩
      else .ok ⟨pop, [], []⟩ := rfl

/-! ### C5 -/

/-- C5: when a migration event proceeds with the default emigration
propagator, exactly `sum(M[island])` individuals are selected from the
eligible set, the shuffled selection is a permutation of it, the
sequential slices at the row's prefix sums partition the whole
selection (so batches are disjoint and every selected individual
belongs to exactly one destination), and the SYNCHRONIZATION payloads
the event actually emits for each destination island `j` with
`row[j] > 0` are exactly those slices. -/
theorem C5_emigrant_selection_partition (cfg : MigCfg)
    (shuffle : List Individual → List Individual) (rnd : Nat → Nat → Nat)
    (pop : List Individual) (res : SendOut)
    (hsh : ∀ l, (shuffle l).Perm l)
    (hge : cfg.migrationRow.sum ≤ (eligibleEmigrants pop cfg.rank).length)
    (hok : sendEmigrants cfg selectMin shuffle rnd pop = .ok res) :
    (selectMin cfg.migrationRow.sum (eligibleEmigrants pop cfg.rank)).length
        = cfg.migrationRow.sum
    ∧ (∀ x ∈ selectMin cfg.migrationRow.sum (eligibleEmigrants pop cfg.rank),
        x ∈ eligibleEmigrants pop cfg.rank)
    ∧ (shuffle (selectMin cfg.migrationRow.sum (eligibleEmigrants pop cfg.rank))).Perm
        (selectMin cfg.migrationRow.sum (eligibleEmigrants pop cfg.rank))
    ∧ ((List.range cfg.migrationRow.length).map
        (batchAt cfg.migrationRow
          (shuffle (selectMin cfg.migrationRow.sum
            (eligibleEmigrants pop cfg.rank))))).flatten
        = shuffle (selectMin cfg.migrationRow.sum (eligibleEmigrants pop cfg.rank))
    ∧ res.syncMsgs = (List.range cfg.migrationRow.length).flatMap (fun j =>
        if cfg.migrationRow.getD j 0 = 0 then []
        else ((List.range cfg.commSize).filter (fun r => r ≠ cfg.rank)).map
              (fun r => (r, batchAt cfg.migrationRow
                (shuffle (selectMin cfg.migrationRow.sum
                  (eligibleEmigrants pop cfg.rank))) j))) := by
  have hlen := selectMin_length cfg.migrationRow.sum (eligibleEmigrants pop cfg.rank) hge
  have hperm := hsh (selectMin cfg.migrationRow.sum (eligibleEmigrants pop cfg.rank))
  have hlenAll : (shuffle (selectMin cfg.migrationRow.sum
      (eligibleEmigrants pop cfg.rank))).length = cfg.migrationRow.sum := by
    rw [hperm.length_eq, hlen]
  refine ⟨hlen, fun x hx => selectMin_subset _ _ x hx, hperm, ?_, ?_⟩
  · have hbf := batches_flatten
      (shuffle (selectMin cfg.migrationRow.sum (eligibleEmigrants pop cfg.rank)))
      cfg.migrationRow
      (shuffle (selectMin cfg.migrationRow.sum (eligibleEmigrants pop cfg.rank)))
    unfold batchAt
    rw [hbf]
    exact List.take_of_length_le (Nat.le_of_eq hlenAll)
  · rw [sendEmigrants_eq, if_pos hge] at hok
    split at hok
    · cases hok
    · rename_i popF sy mg hpt
      obtain rfl : (⟨popF, sy, mg⟩ : SendOut) = res := by injection hok
      obtain ⟨hsy, _⟩ := processTargets_msgs cfg rnd
        (shuffle (selectMin cfg.migrationRow.sum (eligibleEmigrants pop cfg.rank)))
        cfg.migrationRow.enum 0 0 pop popF sy mg hpt
      show sy = _
      rw [hsy]
      rw [show cfg.migrationRow.enum = List.enumFrom 0 cfg.migrationRow from rfl,
        syncsForT_enumFrom]
      congr 1
      funext j
      simp only [batchAt, Nat.zero_add]

/-- Individual used by the migration-event witnesses: bred by worker 0
of island 0, active, owned by rank 0. -/
def wInd : Individual := ⟨[("x", 1)], some 3, 0, 0, 0, 0, 0, true⟩

/-- Result of the witness migration event. -/
def wRes : SendOut :=
  ⟨[{ wInd with active := false }], [(1, [wInd])], [(2, [wInd]), (3, [wInd])]⟩


/-- Closed instance of C5: the witness event's batch slices partition
the selection. -/
theorem C5_emigrant_selection_partition_witness :
    ((List.range wCfg.migrationRow.length).map
      (batchAt wCfg.migrationRow
        (id (selectMin wCfg.migrationRow.sum
          (eligibleEmigrants [wInd] wCfg.rank))))).flatten
      = id (selectMin wCfg.migrationRow.sum (eligibleEmigrants [wInd] wCfg.rank)) :=
  (C5_emigrant_selection_partition wCfg id (fun _ _ => 0) [wInd] wRes
    (fun l => List.Perm.refl l) (by decide) rfl).2.2.2.1

/-! ### C6 -/

/-- C6: on a successful migration event, the SYNCHRONIZATION copies of
each batch go to every other intra-island worker; the MIGRATION copies
go to every world rank of the destination island `j`, all carrying the
same payload, which is the batch with each individual's `current`
replaced by a fresh `rng.randrange(0, island_counts[j])` value (in
particular below `island_counts[j]`) and every other field kept. -/
theorem C6_migration_messages (cfg : MigCfg)
    (emigrator : Nat → List Individual → List Individual)
    (shuffle : List Individual → List Individual) (rnd : Nat → Nat → Nat)
    (pop : List Individual) (res : SendOut)
    (hrnd : ∀ i n, 0 < n → rnd i n < n)
    (hge : cfg.migrationRow.sum ≤ (eligibleEmigrants pop cfg.rank).length)
    (hok : sendEmigrants cfg emigrator shuffle rnd pop = .ok res) :
    (res.syncMsgs = (List.range cfg.migrationRow.length).flatMap (fun j =>
        if cfg.migrationRow.getD j 0 = 0 then []
        else ((List.range cfg.commSize).filter (fun r => r ≠ cfg.rank)).map
              (fun r => (r, batchAt cfg.migrationRow
                (shuffle (emigrator cfg.migrationRow.sum
                  (eligibleEmigrants pop cfg.rank))) j))))
    ∧ (res.migMsgs = (List.range cfg.migrationRow.length).flatMap (fun j =>
        if cfg.migrationRow.getD j 0 = 0 then []
        else (List.range (cfg.islandCounts.getD j 0)).map
              (fun k => (cfg.islandDispls.getD j 0 + k,
                departAt rnd (cfg.islandCounts.getD j 0)
                  (rcAt cfg.migrationRow
                    (shuffle (emigrator cfg.migrationRow.sum
                      (eligibleEmigrants pop cfg.rank))) 0 j)
                  (batchAt cfg.migrationRow
                    (shuffle (emigrator cfg.migrationRow.sum
                      (eligibleEmigrants pop cfg.rank))) j)))))
    ∧ (∀ count rc : Nat, ∀ b : List Individual,
        (departAt rnd count rc b).length = b.length)
    ∧ (∀ count rc : Nat, ∀ b : List Individual, ∀ p : Nat, ∀ hp : p < b.length,
        (departAt rnd count rc b)[p]?
          = some { b.get ⟨p, hp⟩ with current := rnd (rc + p) count })
    ∧ (∀ count rc : Nat, ∀ b : List Individual, ∀ ind,
        ind ∈ departAt rnd count rc b → 0 < count → ind.current < count) := by
  have hmsgs : res.syncMsgs = syncsForT cfg
        (shuffle (emigrator cfg.migrationRow.sum (eligibleEmigrants pop cfg.rank)))
        cfg.migrationRow.enum 0
      ∧ res.migMsgs = migsForT cfg rnd
        (shuffle (emigrator cfg.migrationRow.sum (eligibleEmigrants pop cfg.rank)))
        cfg.migrationRow.enum 0 0 := by
    rw [sendEmigrants_eq, if_pos hge] at hok
    split at hok
    · cases hok
    · rename_i popF sy mg hpt
      obtain rfl : (⟨popF, sy, mg⟩ : SendOut) = res := by injection hok
      exact processTargets_msgs cfg rnd _ cfg.migrationRow.enum 0 0 pop popF sy mg hpt
  obtain ⟨hsy, hmg⟩ := hmsgs
  refine ⟨?_, ?_, ?_, ?_, ?_⟩
  · rw [hsy, show cfg.migrationRow.enum = List.enumFrom 0 cfg.migrationRow from rfl,
      syncsForT_enumFrom]
    congr 1
    funext j
    simp only [batchAt, Nat.zero_add]
  · rw [hmg, show cfg.migrationRow.enum = List.enumFrom 0 cfg.migrationRow from rfl,
      migsForT_enumFrom]
    congr 1
    funext j
    simp only [batchAt, Nat.zero_add]
  · intro count rc b
    simp [departAt, List.enum_length]
  · intro count rc b p hp
    rw [departAt, List.getElem?_map, List.getElem?_enum,
      List.getElem?_eq_getElem hp]
    rfl
  · intro count rc b ind hmem hc
    rw [departAt, List.mem_map] at hmem
    obtain ⟨pi, _, rfl⟩ := hmem
    exact hrnd (rc + pi.1) count hc

/-- Closed instance of C6: the witness event's SYNCHRONIZATION
messages follow the per-island batch structure. -/
theorem C6_migration_messages_witness :
    wRes.syncMsgs = (List.range wCfg.migrationRow.length).flatMap (fun j =>
        if wCfg.migrationRow.getD j 0 = 0 then []
        else ((List.range wCfg.commSize).filter (fun r => r ≠ wCfg.rank)).map
              (fun r => (r, batchAt wCfg.migrationRow
                (id (selectMin wCfg.migrationRow.sum
                  (eligibleEmigrants [wInd] wCfg.rank))) j))) :=
  (C6_migration_messages wCfg selectMin id (fun _ _ => 0) [wInd] wRes
    (fun _ _ h => h) (by decide) rfl).1

/-! ### C8 -/

/-- C8: the final checkpoint block skips the write entirely when no
checkpoint file exists (rank 0, `ckptExists = false` yields no file
operation at all), although the per-generation block writes
unconditionally and the spec requires the final write; with an
existing file it renames then writes. -/
theorem C8_final_checkpoint_skipped :
    finalCheckpointOps 0 false = []
    ∧ FileOp.writeCkpt ∉ finalCheckpointOps 0 false
    ∧ generationDumpOps false = [FileOp.writeCkpt]
    ∧ finalCheckpointOps 0 true = [FileOp.renameToBkp, FileOp.writeCkpt] := by
  decide

/-! ### C9 -/

lemma filter_id_set_false : ∀ (l : List Bool) (w : Nat), w < l.length →
    l.getD w false = true →
    ((l.set w false).filter id).length + 1 = (l.filter id).length
  | [], w, hw, _ => absurd hw (by simp)
  | a :: t, 0, _, hh => by
    simp only [List.getD_cons_zero] at hh
    subst hh
    simp [List.set, List.filter]
  | a :: t, w + 1, hw, hh => by
    simp only [List.getD_cons_succ] at hh
    have ih := filter_id_set_false t w (by simpa using hw) hh
    cases a with
    | true => simp only [List.set, List.filter_cons, id_eq, if_true, List.length_cons]; omega
    | false => simpa [List.set, List.filter] using ih

lemma filter_id_set_true : ∀ (l : List Bool) (w : Nat), w < l.length →
    l.getD w false = false →
    ((l.set w true).filter id).length = (l.filter id).length + 1
  | [], w, hw, _ => absurd hw (by simp)
  | a :: t, 0, _, hh => by
    simp only [List.getD_cons_zero] at hh
    subst hh
    simp [List.set, List.filter]
  | a :: t, w + 1, hw, hh => by
    simp only [List.getD_cons_succ] at hh
    have ih := filter_id_set_true t w (by simpa using hw) hh
    cases a with
    | true => simp only [List.set, List.filter_cons, id_eq, if_true, List.length_cons]; omega
    | false => simpa [List.set, List.filter] using ih

lemma getD_false_of_filter_id : ∀ (l : List Bool),
    (l.filter id).length = 0 → ∀ w, l.getD w false = false
  | [], _, w => by simp
  | a :: t, h, w => by
    cases a with
    | true => simp [List.filter] at h
    | false =>
      cases w with
      | zero => rfl
      | succ w =>
        simp only [List.getD_cons_succ]
        exact getD_false_of_filter_id t (by simpa [List.filter] using h) w

lemma ringInit_count (n : Nat) (hn : 0 < n) :
    countHolders (ringInit n) = 1 := by
  obtain ⟨m, rfl⟩ := Nat.exists_eq_add_of_lt hn
  unfold countHolders ringInit
  rw [Nat.zero_add, List.range_succ_eq_map, List.map_cons, List.map_map]
  have hfalse : (List.range m).map ((fun i => decide (i = 0)) ∘ Nat.succ)
      = (List.range m).map (fun _ => false) := by
    apply List.map_congr_left
    intro k _
    simp
  rw [hfalse]
  have : ((List.range m).map (fun _ => false)).filter id = [] := by
    rw [List.filter_eq_nil_iff]
    intro a ha
    rw [List.mem_map] at ha
    obtain ⟨_, _, rfl⟩ := ha
    simp
  simp [List.filter, this]

lemma ringStep_preserves (n : Nat) (a b : RingState) (h : RingStep n a b)
    (hl : a.holder.length = n)
    (hs : countHolders a + a.inflight.length = 1) :
    b.holder.length = n ∧ countHolders b + b.inflight.length = 1 := by
  cases h with
  | dump w s hw hh =>
    have hwl : w < a.holder.length := by rw [hl]; exact hw
    have hcnt := filter_id_set_false a.holder w hwl hh
    constructor
    · show (a.holder.set w false).length = n
      rw [List.length_set]
      exact hl
    · show ((a.holder.set w false).filter id).length
        + (nextRank w n :: a.inflight).length = 1
      rw [List.length_cons]
      unfold countHolders at hs
      omega
  | recv w s hw hmem =>
    have hwl : w < a.holder.length := by rw [hl]; exact hw
    have hinf : 0 < a.inflight.length := List.length_pos.mpr (List.ne_nil_of_mem hmem)
    have hzero : (a.holder.filter id).length = 0 := by
      unfold countHolders at hs
      omega
    have hcnt := filter_id_set_true a.holder w hwl
      (getD_false_of_filter_id a.holder hzero w)
    have herase : (a.inflight.erase w).length = a.inflight.length - 1 :=
      List.length_erase_of_mem hmem
    constructor
    · show (a.holder.set w true).length = n
      rw [List.length_set]
      exact hl
    · show ((a.holder.set w true).filter id).length + (a.inflight.erase w).length = 1
      unfold countHolders at hs
      omega

/-- C9: the checkpoint-token mutual exclusion.  In every state
reachable from the initial one (worker 0 holds the token), the number
of holders plus the number of DUMP tokens in flight is exactly one —
so at most one worker per island ever holds the token, checkpoint
writes happen only inside the atomic dump step of a holder, and a
holder hands the token to rank `(rank+1) mod size`, becoming a holder
again only via a DUMP receive. -/
theorem C9_token_ring (n : Nat) (s : RingState) (hn : 0 < n)
    (hr : Relation.ReflTransGen (RingStep n) (ringInit n) s) :
    s.holder.length = n
    ∧ countHolders s + s.inflight.length = 1
    ∧ countHolders s ≤ 1 := by
  induction hr with
  | refl =>
    refine ⟨by simp [ringInit], ?_, ?_⟩
    · rw [ringInit_count n hn]
      rfl
    · rw [ringInit_count n hn]
  | tail hab hbc ih =>
    obtain ⟨ihl, ihs, _⟩ := ih
    obtain ⟨hl, hs⟩ := ringStep_preserves n _ _ hbc ihl ihs
    exact ⟨hl, hs, by omega⟩

/-- Closed instance of C9 at the initial state of a two-worker island. -/
theorem C9_token_ring_witness :
    (ringInit 2).holder.length = 2
    ∧ countHolders (ringInit 2) + (ringInit 2).inflight.length = 1
    ∧ countHolders (ringInit 2) ≤ 1 :=
  C9_token_ring 2 (ringInit 2) (by decide) Relation.ReflTransGen.refl

/-- Closed instance of C1 at two concrete individuals. -/
theorem C1_same_candidate_equality_witness :
    (indEq wInd cIndPop = true ↔
      wInd.traits = cIndPop.traits ∧ wInd.generation = cIndPop.generation ∧
        wInd.rank = cIndPop.rank ∧ wInd.island = cIndPop.island) :=
  (C1_same_candidate_equality wInd cIndPop).1

/-- Closed instance of C10 on a non-empty emigrated log. -/
theorem C10_debug_zero_skips_check_witness :
    terminationEmigratedCheck 0 ⟨[], [cIndEmi]⟩ [] = .ok ⟨[], [cIndEmi]⟩ :=
  C10_debug_zero_skips_check ⟨[], [cIndEmi]⟩ []
